import Mathlib

/-!
Verification of the change-based project selection resolver implemented in
src/.ci/compute_projects.py (class ProjectConfiguration).  The resolver maps a
list of changed file paths plus a platform name to six shell variables listing
the projects and runtimes to build and the check targets to run.

The Python module references configuration constants (PROJECT_DEPENDENCIES,
DEPENDENTS_TO_TEST, DEPENDENT_RUNTIMES_TO_BUILD, DEPENDENT_RUNTIMES_TO_TEST,
DEPENDENT_RUNTIMES_TO_TEST_NEEDS_RECONFIG, PROJECT_CHECK_TARGETS, RUNTIMES,
EXCLUDE_LINUX, EXCLUDE_WINDOWS, EXCLUDE_MAC, EXCLUDE_DEPENDENTS_WINDOWS,
META_PROJECTS, SKIP_PROJECTS, SKIP_BUILD_PROJECTS) whose definitions are elided
in the file (a placeholder comment stands in their place).  The tables are
therefore modelled abstractly as an explicit configuration record, and the
algorithms are embedded as functions over that record; properties are settled
for every configuration, and concrete small configurations instantiate
counterexamples and witnesses.

Python strings compare lexicographically by code points; the embedding uses an
explicit boolean lexicographic order on strings so that all computations
reduce inside the kernel.
-/

/-- Boolean lexicographic order on lists of characters, by code points, as
Python compares strings. -/
def lex_le : List Char → List Char → Bool
  | [], _ => true
  | _ :: _, [] => false
  | a :: as, b :: bs => if a < b then true else if b < a then false else lex_le as bs

/-- Lexicographic order on strings, the order used by the Python builtin
sorted on strings. -/
def str_le (a b : String) : Bool := lex_le a.toList b.toList

/-- The string order as a proposition, for use with the Mathlib sorting
machinery. -/
def sLe (a b : String) : Prop := str_le a b = true

instance (a b : String) : Decidable (sLe a b) := inferInstanceAs (Decidable (_ = true))

instance : IsTotal String sLe := ⟨fun a b => by
  have H : ∀ (x y : List Char), lex_le x y = true ∨ lex_le y x = true := by
    intro x
    induction x with
    | nil => intro y; left; rfl
    | cons c cs ih =>
      intro y
      cases y with
      | nil => right; rfl
      | cons d ds =>
        by_cases hcd : c < d
        · left; simp [lex_le, hcd]
        · by_cases hdc : d < c
          · right; simp [lex_le, hdc, hcd]
          · rcases ih ds with h | h
            · left; simp [lex_le, hcd, hdc, h]
            · right; simp [lex_le, hcd, hdc, h]
  exact H a.toList b.toList⟩

instance : IsTrans String sLe := ⟨fun a b c => by
  have H : ∀ (x y z : List Char), lex_le x y = true → lex_le y z = true → lex_le x z = true := by
    intro x
    induction x with
    | nil => intro y z _ _; rfl
    | cons u us ih =>
      intro y z h1 h2
      cases y with
      | nil => simp [lex_le] at h1
      | cons v vs =>
        cases z with
        | nil => simp [lex_le] at h2
        | cons w ws =>
          by_cases huv : u < v <;> by_cases hvw : v < w
          · simp [lex_le, lt_trans huv hvw]
          · by_cases hwv : w < v
            · simp [lex_le, hwv, hvw] at h2
            · have : v = w := le_antisymm (not_lt.mp hwv) (not_lt.mp hvw)
              subst this
              simp [lex_le, huv]
          · by_cases hvu : v < u
            · simp [lex_le, huv, hvu] at h1
            · have : u = v := le_antisymm (not_lt.mp hvu) (not_lt.mp huv)
              subst this
              simp [lex_le, hvw]
          · by_cases hvu : v < u
            · simp [lex_le, huv, hvu] at h1
            · have hx : u = v := le_antisymm (not_lt.mp hvu) (not_lt.mp huv)
              subst hx
              by_cases hwu : w < u
              · simp [lex_le, hwu, hvw] at h2
              · have : u = w := le_antisymm (not_lt.mp hwu) (not_lt.mp hvw)
                subst this
                simp only [lex_le, if_neg (lt_irrefl u)] at h1 h2 ⊢
                exact ih vs ws h1 h2
  exact H a.toList b.toList c.toList⟩

instance : IsAntisymm String sLe := ⟨fun a b h1 h2 => by
  have H : ∀ (x y : List Char), lex_le x y = true → lex_le y x = true → x = y := by
    intro x
    induction x with
    | nil =>
      intro y _ hy
      cases y with
      | nil => rfl
      | cons d ds => simp [lex_le] at hy
    | cons c cs ih =>
      intro y hxy hyx
      cases y with
      | nil => simp [lex_le] at hxy
      | cons d ds =>
        by_cases hcd : c < d
        · simp [lex_le, hcd, lt_asymm hcd] at hyx
        · by_cases hdc : d < c
          · simp [lex_le, hcd, hdc] at hxy
          · have hc : c = d := le_antisymm (not_lt.mp hdc) (not_lt.mp hcd)
            subst hc
            simp only [lex_le, if_neg (lt_irrefl c)] at hxy hyx
            rw [ih ds hxy hyx]
  cases a with
  | mk da =>
    cases b with
    | mk db => exact congrArg String.mk (H da db h1 h2)⟩

/-- Sorting a list of strings in ascending lexicographic order: the embedding
of the Python builtin sorted applied to a list of strings. -/
def sort_strings (l : List String) : List String := List.insertionSort sLe l

/-- Splits a character stream at slashes, accumulating the current segment in
reverse. -/
def split_segments : List Char → List Char → List String
  | [], cur => [String.mk cur.reverse]
  | c :: cs, cur =>
    if c = '/' then String.mk cur.reverse :: split_segments cs []
    else split_segments cs (c :: cur)

/-- Embedding of pathlib.Path(modified_file).parts for relative paths: split
at slashes and drop empty segments and single-dot segments. -/
def path_parts (s : String) : List String :=
  (split_segments s.toList []).filter (fun q => !(q == "" || q == "."))

/-- Modelled from the spec: the configuration tables of the resolver
(PROJECT_DEPENDENCIES, DEPENDENTS_TO_TEST, DEPENDENT_RUNTIMES_TO_BUILD,
DEPENDENT_RUNTIMES_TO_TEST, DEPENDENT_RUNTIMES_TO_TEST_NEEDS_RECONFIG,
PROJECT_CHECK_TARGETS, RUNTIMES, the three per-platform exclusion sets,
EXCLUDE_DEPENDENTS_WINDOWS, META_PROJECTS, SKIP_PROJECTS and
SKIP_BUILD_PROJECTS) are referenced by src/.ci/compute_projects.py but their
definitions are elided there; the spec describes them as static declarative
data: dictionaries from project names to sets of project names or to check
target names, sets of project names, and an ordered table from path patterns
to project names.  Dictionaries are modelled as association lists (first
matching key wins, as in a Python dict, whose keys are unique). -/
structure Config where
  dependencies : List (String × Finset String)
  dependents : List (String × Finset String)
  runtime_deps : List (String × Finset String)
  test_runtimes : List (String × Finset String)
  test_runtimes_reconfig : List (String × Finset String)
  check_targets : List (String × String)
  runtimes : Finset String
  exclude_linux : Finset String
  exclude_windows : Finset String
  exclude_mac : Finset String
  exclude_dependents_windows : Finset String
  meta_projects : List (List String × String)
  skip_projects : Finset String
  skip_build_projects : Finset String

/-- Direct build dependencies of a project: the PROJECT_DEPENDENCIES entry of
the project, or the empty set when the project has no entry (the loops in
the source guard each access with a membership test). -/
def depsOf (cfg : Config) (project : String) : Finset String :=
  (cfg.dependencies.lookup project).getD ∅

/-- Union of all dependency sets appearing as values of the dependency table;
every element ever added by the closure loop lies in this set, which bounds
the number of iterations of the while loop in the source. -/
def deps_universe (cfg : Config) : Finset String :=
  cfg.dependencies.foldr (fun e acc => e.2 ∪ acc) ∅

/-- One pass of the while loop in ProjectConfiguration._add_dependencies:
the snapshot list of the current set is traversed and the dependencies of
every member are added. -/
def dep_step (cfg : Config) (s : Finset String) : Finset String :=
  s ∪ s.biUnion (depsOf cfg)

/-- The while loop of ProjectConfiguration._add_dependencies: repeat dep_step
until the set stops changing.  The loop in the source terminates because each
continuing iteration strictly grows the set inside a fixed universe; the
embedding runs the same loop with enough fuel to reach the fixed point. -/
def add_dependencies_loop (cfg : Config) : Nat → Finset String → Finset String
  | 0, s => s
  | n + 1, s => if dep_step cfg s = s then s else add_dependencies_loop cfg n (dep_step cfg s)

/-- Fuel sufficient for add_dependencies_loop to reach its fixed point. -/
def closure_fuel (cfg : Config) : Nat := (deps_universe cfg).card + 1

/-- Embedding of ProjectConfiguration._add_dependencies: the transitive
dependency closure of the projects, then one extra pass adding the direct
dependencies of each runtime (the runtimes themselves are not added and their
dependencies are not expanded further). -/
def add_dependencies (cfg : Config) (projects runtimes : Finset String) : Finset String :=
  add_dependencies_loop cfg (closure_fuel cfg) projects ∪ runtimes.biUnion (depsOf cfg)

/-- The per-platform exclusion dictionary access self.exclusions.get(name, set())
from the source: the three recognized platform names select their exclusion
set and every other string yields the empty set. -/
def exclusions_for (cfg : Config) (platform_name : String) : Finset String :=
  if platform_name = "Linux" then cfg.exclude_linux
  else if platform_name = "Windows" then cfg.exclude_windows
  else if platform_name = "Darwin" then cfg.exclude_mac
  else ∅

/-- Embedding of ProjectConfiguration._exclude_platform_projects. -/
def exclude_platform_projects (cfg : Config) (projects : Finset String) (platform_name : String) : Finset String :=
  projects \ exclusions_for cfg platform_name

/-- The dependents portion of the loop body of
ProjectConfiguration._compute_projects_to_test: the DEPENDENTS_TO_TEST entry
of the project when present, with EXCLUDE_DEPENDENTS_WINDOWS removed on the
Windows platform. -/
def dependents_part (cfg : Config) (platform_name project : String) : Finset String :=
  match cfg.dependents.lookup project with
  | none => ∅
  | some ds => if platform_name = "Windows" then ds \ cfg.exclude_dependents_windows else ds

/-- The contribution of one modified project to projects_to_test, the loop
body of ProjectConfiguration._compute_projects_to_test: runtimes contribute
nothing; otherwise the project itself when it has a check target, plus its
dependents entry. -/
def projects_to_test_contrib (cfg : Config) (platform_name project : String) : Finset String :=
  if project ∈ cfg.runtimes then ∅
  else
    (if (cfg.check_targets.lookup project).isSome then {project} else ∅)
      ∪ dependents_part cfg platform_name project

/-- Embedding of ProjectConfiguration._compute_projects_to_test: the loop
accumulates the union of the per-project contributions, then the platform
exclusion set is removed. -/
def compute_projects_to_test (cfg : Config) (modified_projects : Finset String) (platform_name : String) : Finset String :=
  exclude_platform_projects cfg
    (modified_projects.biUnion (projects_to_test_contrib cfg platform_name)) platform_name

/-- Embedding of ProjectConfiguration._compute_runtimes_to_test. -/
def compute_runtimes_to_test (cfg : Config) (modified_projects : Finset String) (platform_name : String) : Finset String :=
  exclude_platform_projects cfg
    (modified_projects.biUnion (fun p => (cfg.test_runtimes.lookup p).getD ∅)) platform_name

/-- Embedding of ProjectConfiguration._compute_runtimes_to_test_needs_reconfig. -/
def compute_runtimes_to_test_needs_reconfig (cfg : Config) (modified_projects : Finset String) (platform_name : String) : Finset String :=
  exclude_platform_projects cfg
    (modified_projects.biUnion (fun p => (cfg.test_runtimes_reconfig.lookup p).getD ∅)) platform_name

/-- Embedding of ProjectConfiguration._compute_runtimes_to_build: start from
the runtimes to test, add the DEPENDENT_RUNTIMES_TO_BUILD entries of the
modified projects, and remove the platform exclusions. -/
def compute_runtimes_to_build (cfg : Config) (runtimes_to_test modified_projects : Finset String) (platform_name : String) : Finset String :=
  exclude_platform_projects cfg
    (runtimes_to_test ∪ modified_projects.biUnion (fun p => (cfg.runtime_deps.lookup p).getD ∅))
    platform_name

/-- Embedding of ProjectConfiguration._path_matches: the file path must have
at least as many segments as the matcher and each matcher segment must equal
the corresponding file segment or be the wildcard star. -/
def path_matches : List String → List String → Bool
  | [], _ => true
  | _ :: _, [] => false
  | m :: ms, f :: fs => (m == "*" || m == f) && path_matches ms fs

/-- The loop of ProjectConfiguration._get_modified_projects_for_file over the
META_PROJECTS table: a matching entry whose project is in SKIP_PROJECTS
returns the empty set at once; other matching entries accumulate their
project; after the loop the first path segment is added.  The value none
models the IndexError raised by path_parts[0] when the path has no
segments. -/
def meta_loop (cfg : Config) (parts : List String) : List (List String × String) → Finset String → Option (Finset String)
  | [], acc =>
    match parts with
    | [] => none
    | p :: _ => some (insert p acc)
  | e :: rest, acc =>
    if path_matches e.1 parts then
      if e.2 ∈ cfg.skip_projects then some ∅
      else meta_loop cfg parts rest (insert e.2 acc)
    else meta_loop cfg parts rest acc

/-- Embedding of ProjectConfiguration._get_modified_projects_for_file. -/
def get_modified_projects_for_file (cfg : Config) (modified_file : String) : Option (Finset String) :=
  meta_loop cfg (path_parts modified_file) cfg.meta_projects ∅

/-- Embedding of ProjectConfiguration.get_modified_projects: union the
resolved projects of each file in order; a failing file aborts the whole
computation, as the uncaught IndexError does in the source. -/
def get_modified_projects (cfg : Config) : List String → Option (Finset String)
  | [] => some ∅
  | f :: fs => do
    let s ← get_modified_projects_for_file cfg f
    let rest ← get_modified_projects cfg fs
    pure (s ∪ rest)

/-- The five result sets of one resolution together with the CIR flag, the
intermediate state of ProjectConfiguration.get_env_variables just before
rendering. -/
structure Selection where
  projects_to_test : Finset String
  runtimes_to_test : Finset String
  runtimes_to_test_needs_reconfig : Finset String
  runtimes_to_build : Finset String
  projects_to_build : Finset String
  enable_cir : Bool
deriving DecidableEq

/-- The final projects_to_build set of ProjectConfiguration.get_env_variables:
dependency closure of the projects to test, one pass of runtime dependencies,
then the SKIP_BUILD_PROJECTS discard loop. -/
def projects_to_build_from (cfg : Config) (modified_projects : Finset String) (platform_name : String) : Finset String :=
  add_dependencies cfg (compute_projects_to_test cfg modified_projects platform_name)
      (compute_runtimes_to_build cfg
        (compute_runtimes_to_test cfg modified_projects platform_name
          ∪ compute_runtimes_to_test_needs_reconfig cfg modified_projects platform_name)
        modified_projects platform_name)
    \ cfg.skip_build_projects

/-- The selection computed by ProjectConfiguration.get_env_variables from the
set of modified projects. -/
def select_from_modified (cfg : Config) (modified_projects : Finset String) (platform_name : String) : Selection :=
  { projects_to_test := compute_projects_to_test cfg modified_projects platform_name
    runtimes_to_test := compute_runtimes_to_test cfg modified_projects platform_name
    runtimes_to_test_needs_reconfig := compute_runtimes_to_test_needs_reconfig cfg modified_projects platform_name
    runtimes_to_build := compute_runtimes_to_build cfg
      (compute_runtimes_to_test cfg modified_projects platform_name
        ∪ compute_runtimes_to_test_needs_reconfig cfg modified_projects platform_name)
      modified_projects platform_name
    projects_to_build := projects_to_build_from cfg modified_projects platform_name
    enable_cir := decide ("CIR" ∈ projects_to_build_from cfg modified_projects platform_name) }

/-- Full selection from the list of changed files, none when path resolution
raises. -/
def select (cfg : Config) (modified_files : List String) (platform_name : String) : Option Selection :=
  (get_modified_projects cfg modified_files).map
    (fun m => select_from_modified cfg m platform_name)

/-- The six string outputs of ProjectConfiguration.get_env_variables. -/
structure EnvVariables where
  projects_to_build : String
  project_check_targets : String
  runtimes_to_build : String
  runtimes_check_targets : String
  runtimes_check_targets_needs_reconfig : String
  enable_cir : String
deriving DecidableEq

/-- Ascending enumeration of a finite set of strings; the embedding of the
Python builtin sorted applied to a set, well defined because two permutations
of the same elements sort to the same list. -/
def sortFinset (s : Finset String) : List String :=
  Quot.liftOn s.val sort_strings
    (fun a b h => List.eq_of_perm_of_sorted
      ((List.perm_insertionSort sLe a).trans
        ((Quotient.exact (Quot.sound h)).trans (List.perm_insertionSort sLe b).symm))
      (List.sorted_insertionSort sLe a)
      (List.sorted_insertionSort sLe b))

/-- Rendering of one check-target variable in
ProjectConfiguration.get_env_variables: look up the check target of every
member that has one and sort the resulting target names, joining with single
spaces.  The members are enumerated through sortFinset; the Python source
iterates the set in unspecified order, which is immaterial because the list
of target names is sorted afterwards. -/
def render_check_targets (cfg : Config) (s : Finset String) : String :=
  String.intercalate " "
    (sort_strings ((sortFinset s).filterMap (fun p => cfg.check_targets.lookup p)))

/-- The dictionary literal returned by ProjectConfiguration.get_env_variables:
project and runtime sets joined by semicolons in ascending order, check
targets rendered by render_check_targets, and the CIR flag as ON or OFF. -/
def render (cfg : Config) (sel : Selection) : EnvVariables :=
  { projects_to_build := String.intercalate ";" (sortFinset sel.projects_to_build)
    project_check_targets := render_check_targets cfg sel.projects_to_test
    runtimes_to_build := String.intercalate ";" (sortFinset sel.runtimes_to_build)
    runtimes_check_targets := render_check_targets cfg sel.runtimes_to_test
    runtimes_check_targets_needs_reconfig := render_check_targets cfg sel.runtimes_to_test_needs_reconfig
    enable_cir := if sel.enable_cir then "ON" else "OFF" }

/-- Embedding of ProjectConfiguration.get_env_variables. -/
def get_env_variables (cfg : Config) (modified_files : List String) (platform_name : String) : Option EnvVariables :=
  (select cfg modified_files platform_name).map (render cfg)

/-- The matching rule as the spec words it: the file path has at least as
many segments as the pattern and every pattern segment equals the
corresponding path segment or is the wildcard. -/
def matches_spec (matcher file_path : List String) : Prop :=
  matcher.length ≤ file_path.length ∧ ∀ q ∈ matcher.zip file_path, q.1 = "*" ∨ q.1 = q.2

instance (matcher file_path : List String) : Decidable (matches_spec matcher file_path) :=
  inferInstanceAs (Decidable (_ ∧ _))

/-- The union of the target projects of the meta entries of a list that match
the path, phrased with the spec-side matching rule. -/
def meta_matched_spec_list (metas : List (List String × String)) (parts : List String) : Finset String :=
  (metas.filter (fun e => decide (matches_spec e.1 parts))).foldr (fun e acc => insert e.2 acc) ∅

/-- The union of the target projects of all meta entries matching the path. -/
def meta_matched_spec (cfg : Config) (parts : List String) : Finset String :=
  meta_matched_spec_list cfg.meta_projects parts

/-- Same union phrased with the source-side boolean matcher, used to relate
the loop to the declarative description. -/
def meta_matched_list (metas : List (List String × String)) (parts : List String) : Finset String :=
  (metas.filter (fun e => path_matches e.1 parts)).foldr (fun e acc => insert e.2 acc) ∅

/-- The check-target rendering that claim C1 describes: the target names of
the members having an entry, joined by single spaces in ascending lexical
order of the project names rather than of the target names. -/
def check_targets_by_project_order (cfg : Config) (s : Finset String) : String :=
  String.intercalate " " ((sortFinset s).filterMap (fun p => cfg.check_targets.lookup p))

/-- Modelled from the spec: projects_to_test computed with no
platform-specific exclusions and no Windows dependents removal, the behavior
the spec ascribes to an unrecognized platform value. -/
def projects_to_test_noexcl (cfg : Config) (modified_projects : Finset String) : Finset String :=
  modified_projects.biUnion (fun project =>
    if project ∈ cfg.runtimes then ∅
    else
      (if (cfg.check_targets.lookup project).isSome then {project} else ∅)
        ∪ (cfg.dependents.lookup project).getD ∅)

/-- Modelled from the spec: runtimes_to_test with the empty exclusion set. -/
def runtimes_to_test_noexcl (cfg : Config) (modified_projects : Finset String) : Finset String :=
  modified_projects.biUnion (fun p => (cfg.test_runtimes.lookup p).getD ∅)

/-- Modelled from the spec: the reconfigure variant with the empty exclusion
set. -/
def runtimes_to_test_reconfig_noexcl (cfg : Config) (modified_projects : Finset String) : Finset String :=
  modified_projects.biUnion (fun p => (cfg.test_runtimes_reconfig.lookup p).getD ∅)

/-- Modelled from the spec: runtimes_to_build with the empty exclusion set. -/
def runtimes_to_build_noexcl (cfg : Config) (modified_projects : Finset String) : Finset String :=
  (runtimes_to_test_noexcl cfg modified_projects ∪ runtimes_to_test_reconfig_noexcl cfg modified_projects)
    ∪ modified_projects.biUnion (fun p => (cfg.runtime_deps.lookup p).getD ∅)

/-- Modelled from the spec: the final build set with the empty exclusion
set. -/
def projects_to_build_noexcl (cfg : Config) (modified_projects : Finset String) : Finset String :=
  add_dependencies cfg (projects_to_test_noexcl cfg modified_projects)
      (runtimes_to_build_noexcl cfg modified_projects)
    \ cfg.skip_build_projects

/-- Modelled from the spec: the whole selection with no platform-specific
exclusions and no Windows dependents removal. -/
def select_noexcl (cfg : Config) (modified_projects : Finset String) : Selection :=
  { projects_to_test := projects_to_test_noexcl cfg modified_projects
    runtimes_to_test := runtimes_to_test_noexcl cfg modified_projects
    runtimes_to_test_needs_reconfig := runtimes_to_test_reconfig_noexcl cfg modified_projects
    runtimes_to_build := runtimes_to_build_noexcl cfg modified_projects
    projects_to_build := projects_to_build_noexcl cfg modified_projects
    enable_cir := decide ("CIR" ∈ projects_to_build_noexcl cfg modified_projects) }

/-- Modelled from the spec: the rendered output mapping under the empty
exclusion set. -/
def get_env_variables_noexcl (cfg : Config) (modified_files : List String) : Option EnvVariables :=
  (get_modified_projects cfg modified_files).map (fun m => render cfg (select_noexcl cfg m))

/-- The configuration with every table empty, the base of the concrete test
configurations below. -/
def cfg0 : Config :=
  { dependencies := []
    dependents := []
    runtime_deps := []
    test_runtimes := []
    test_runtimes_reconfig := []
    check_targets := []
    runtimes := ∅
    exclude_linux := ∅
    exclude_windows := ∅
    exclude_mac := ∅
    exclude_dependents_windows := ∅
    meta_projects := []
    skip_projects := ∅
    skip_build_projects := ∅ }

/-- Configuration exercising the check-target rendering: two projects whose
ascending project-name order (CIR before bolt, uppercase first) differs from
the ascending order of their target names (check-bolt before
check-clang-cir); the target names are the ones the test file of the
repository pins for these projects. -/
def cfgA : Config :=
  { cfg0 with check_targets := [("CIR", "check-clang-cir"), ("bolt", "check-bolt")] }

/-- Configuration exercising the dependency closure against the platform
exclusions: project y depends on project x and x is excluded on Linux. -/
def cfgB : Config :=
  { cfg0 with
    dependencies := [("y", {"x"})]
    check_targets := [("y", "check-y")]
    exclude_linux := {"x"} }

/-- Configuration exercising the runtime dependency pass: runtime r is tested
when touched, r depends on project d, and d depends on project e, which the
single runtime pass never adds. -/
def cfgC : Config :=
  { cfg0 with
    dependencies := [("r", {"d"}), ("d", {"e"})]
    runtimes := {"r"}
    test_runtimes := [("r", {"r"})] }

/-- Configuration with a meta-project table: documentation files under llvm
map to the skip-entirely project docs, mirroring the shape of the real
table. -/
def cfgM : Config :=
  { cfg0 with
    meta_projects := [(["llvm", "docs"], "docs"), (["llvm", "utils", "gn"], "gn")]
    skip_projects := {"docs", "gn"} }

/-- A set closed under the dependency graph: the fixed points of dep_step. -/
def dep_closed (cfg : Config) (t : Finset String) : Prop :=
  ∀ p ∈ t, depsOf cfg p ⊆ t

theorem list_lookup_mem {β : Type} : ∀ (l : List (String × β)) (k : String) (v : β), l.lookup k = some v → (k, v) ∈ l := by
  intro l
  induction l with
  | nil => intro k v h; simp [List.lookup] at h
  | cons e rest ih =>
    intro k v h
    cases e with
    | mk k1 v1 =>
      by_cases hk : k = k1
      · subst hk
        simp [List.lookup] at h
        simp [h]
      · have hb : (k == k1) = false := beq_eq_false_iff_ne.mpr hk
        simp only [List.lookup, hb] at h
        exact List.mem_cons_of_mem _ (ih k v h)

theorem mem_foldr_union : ∀ (l : List (String × Finset String)) (k : String) (v : Finset String), (k, v) ∈ l → v ⊆ l.foldr (fun e acc => e.2 ∪ acc) ∅ := by
  intro l
  induction l with
  | nil => intro k v h; simp at h
  | cons e rest ih =>
    intro k v h
    rcases List.mem_cons.mp h with he | he
    · subst he
      exact Finset.subset_union_left
    · exact (ih k v he).trans Finset.subset_union_right

theorem depsOf_subset_universe (cfg : Config) (p : String) : depsOf cfg p ⊆ deps_universe cfg := by
  unfold depsOf
  cases h : cfg.dependencies.lookup p with
  | none => simp
  | some v =>
    simp only [Option.getD_some]
    exact mem_foldr_union cfg.dependencies p v (list_lookup_mem cfg.dependencies p v h)

theorem subset_add_dependencies_loop (cfg : Config) : ∀ (n : Nat) (s : Finset String), s ⊆ add_dependencies_loop cfg n s := by
  intro n
  induction n with
  | zero => intro s; exact Finset.Subset.refl s
  | succ n ih =>
    intro s
    unfold add_dependencies_loop
    by_cases h : dep_step cfg s = s
    · rw [if_pos h]
    · rw [if_neg h]
      exact Finset.subset_union_left.trans (ih (dep_step cfg s))

theorem add_dependencies_loop_subset_closed (cfg : Config) {t : Finset String} (ht : dep_closed cfg t) : ∀ (n : Nat) {s : Finset String}, s ⊆ t → add_dependencies_loop cfg n s ⊆ t := by
  intro n
  induction n with
  | zero => intro s hs; exact hs
  | succ n ih =>
    intro s hs
    unfold add_dependencies_loop
    by_cases h : dep_step cfg s = s
    · rw [if_pos h]; exact hs
    · rw [if_neg h]
      apply ih
      apply Finset.union_subset hs
      rw [Finset.biUnion_subset]
      intro x hx
      exact ht x (hs hx)

theorem add_dependencies_loop_closed (cfg : Config) : ∀ (n : Nat) (s : Finset String), (deps_universe cfg \ s).card < n → dep_closed cfg (add_dependencies_loop cfg n s) := by
  intro n
  induction n with
  | zero => intro s h; exact absurd h (Nat.not_lt_zero _)
  | succ n ih =>
    intro s h
    unfold add_dependencies_loop
    by_cases hstep : dep_step cfg s = s
    · rw [if_pos hstep]
      intro p hp
      have hsub : s.biUnion (depsOf cfg) ⊆ s := by
        conv_rhs => rw [← hstep]
        exact Finset.subset_union_right
      exact (Finset.subset_biUnion_of_mem (depsOf cfg) hp).trans hsub
    · rw [if_neg hstep]
      apply ih
      have hss : s ⊆ dep_step cfg s := Finset.subset_union_left
      obtain ⟨x, hx_in, hx_not⟩ := Finset.exists_of_ssubset (lt_of_le_of_ne hss (fun e => hstep e.symm))
      have hxU : x ∈ deps_universe cfg := by
        rcases Finset.mem_union.mp hx_in with h1 | h2
        · exact absurd h1 hx_not
        · obtain ⟨p, _, hxd⟩ := Finset.mem_biUnion.mp h2
          exact depsOf_subset_universe cfg p hxd
      have hsubset : deps_universe cfg \ dep_step cfg s ⊆ deps_universe cfg \ s :=
        Finset.sdiff_subset_sdiff (le_refl _) hss
      have hstrict : deps_universe cfg \ dep_step cfg s ⊂ deps_universe cfg \ s := by
        rw [Finset.ssubset_iff_of_subset hsubset]
        exact ⟨x, Finset.mem_sdiff.mpr ⟨hxU, hx_not⟩, fun hc => (Finset.mem_sdiff.mp hc).2 hx_in⟩
      have hcard := Finset.card_lt_card hstrict
      omega

theorem closure_closed (cfg : Config) (s : Finset String) : dep_closed cfg (add_dependencies_loop cfg (closure_fuel cfg) s) := by
  apply add_dependencies_loop_closed
  unfold closure_fuel
  have := Finset.card_le_card (Finset.sdiff_subset (s := deps_universe cfg) (t := s))
  omega

theorem add_dependencies_loop_mono (cfg : Config) {s t : Finset String} (h : s ⊆ t) :
    add_dependencies_loop cfg (closure_fuel cfg) s ⊆ add_dependencies_loop cfg (closure_fuel cfg) t :=
  add_dependencies_loop_subset_closed cfg (closure_closed cfg t) _
    (h.trans (subset_add_dependencies_loop cfg _ t))

theorem biUnion_mono (f : String → Finset String) {s t : Finset String} (h : s ⊆ t) :
    s.biUnion f ⊆ t.biUnion f :=
  Finset.biUnion_subset_biUnion_of_subset_left f h

theorem exclude_platform_projects_mono (cfg : Config) (p : String) {s t : Finset String} (h : s ⊆ t) :
    exclude_platform_projects cfg s p ⊆ exclude_platform_projects cfg t p :=
  Finset.sdiff_subset_sdiff h (le_refl _)

theorem compute_projects_to_test_mono (cfg : Config) (p : String) {m m' : Finset String} (h : m ⊆ m') :
    compute_projects_to_test cfg m p ⊆ compute_projects_to_test cfg m' p :=
  exclude_platform_projects_mono cfg p (biUnion_mono _ h)

theorem compute_runtimes_to_test_mono (cfg : Config) (p : String) {m m' : Finset String} (h : m ⊆ m') :
    compute_runtimes_to_test cfg m p ⊆ compute_runtimes_to_test cfg m' p :=
  exclude_platform_projects_mono cfg p (biUnion_mono _ h)

theorem compute_runtimes_to_test_needs_reconfig_mono (cfg : Config) (p : String) {m m' : Finset String} (h : m ⊆ m') :
    compute_runtimes_to_test_needs_reconfig cfg m p ⊆ compute_runtimes_to_test_needs_reconfig cfg m' p :=
  exclude_platform_projects_mono cfg p (biUnion_mono _ h)

theorem compute_runtimes_to_build_mono (cfg : Config) (p : String) {r r' m m' : Finset String} (hr : r ⊆ r') (hm : m ⊆ m') :
    compute_runtimes_to_build cfg r m p ⊆ compute_runtimes_to_build cfg r' m' p :=
  exclude_platform_projects_mono cfg p (Finset.union_subset_union hr (biUnion_mono _ hm))

theorem add_dependencies_mono (cfg : Config) {s s' r r' : Finset String} (hs : s ⊆ s') (hr : r ⊆ r') :
    add_dependencies cfg s r ⊆ add_dependencies cfg s' r' :=
  Finset.union_subset_union (add_dependencies_loop_mono cfg hs) (biUnion_mono _ hr)

theorem projects_to_build_from_mono (cfg : Config) (p : String) {m m' : Finset String} (h : m ⊆ m') :
    projects_to_build_from cfg m p ⊆ projects_to_build_from cfg m' p :=
  Finset.sdiff_subset_sdiff
    (add_dependencies_mono cfg (compute_projects_to_test_mono cfg p h)
      (compute_runtimes_to_build_mono cfg p
        (Finset.union_subset_union (compute_runtimes_to_test_mono cfg p h)
          (compute_runtimes_to_test_needs_reconfig_mono cfg p h)) h))
    (le_refl _)

theorem get_modified_projects_append_subset (cfg : Config) : ∀ (l : List String) (f : String) (m m' : Finset String), get_modified_projects cfg l = some m → get_modified_projects cfg (l ++ [f]) = some m' → m ⊆ m' := by
  intro l
  induction l with
  | nil =>
    intro f m m' h1 _
    simp [get_modified_projects] at h1
    subst h1
    exact Finset.empty_subset _
  | cons g gs ih =>
    intro f m m' h1 h2
    simp only [get_modified_projects, List.cons_append] at h1 h2
    cases hg : get_modified_projects_for_file cfg g with
    | none => rw [hg] at h1; simp at h1
    | some sg =>
      rw [hg] at h1 h2
      simp only [Option.bind_eq_bind, Option.some_bind, List.append_eq] at h1 h2
      cases hr : get_modified_projects cfg gs with
      | none => rw [hr] at h1; simp at h1
      | some mr =>
        rw [hr] at h1
        simp at h1
        cases hr2 : get_modified_projects cfg (gs ++ [f]) with
        | none => rw [hr2] at h2; simp at h2
        | some mr2 =>
          rw [hr2] at h2
          simp at h2
          subst h1
          subst h2
          exact Finset.union_subset_union (le_refl sg) (ih f mr mr2 hr hr2)

theorem path_matches_iff : ∀ (mt fp : List String), path_matches mt fp = true ↔ matches_spec mt fp := by
  intro mt
  induction mt with
  | nil => intro fp; simp [path_matches, matches_spec]
  | cons m ms ih =>
    intro fp
    cases fp with
    | nil => simp [path_matches, matches_spec]
    | cons f fs =>
      simp only [path_matches, Bool.and_eq_true, Bool.or_eq_true, beq_iff_eq, matches_spec,
        List.zip_cons_cons, List.mem_cons, List.length_cons]
      constructor
      · rintro ⟨hm, hrest⟩
        obtain ⟨hl, hall⟩ := (ih fs).mp hrest
        refine ⟨Nat.succ_le_succ hl, ?_⟩
        intro q hq
        rcases hq with hq | hq
        · subst hq; simpa using hm
        · exact hall q hq
      · rintro ⟨hl, hall⟩
        refine ⟨?_, (ih fs).mpr ⟨Nat.le_of_succ_le_succ hl, fun q hq => hall q (Or.inr hq)⟩⟩
        simpa using hall (m, f) (Or.inl rfl)

theorem path_matches_eq_decide (mt fp : List String) : path_matches mt fp = decide (matches_spec mt fp) := by
  by_cases h : matches_spec mt fp
  · simp [h, (path_matches_iff mt fp).mpr h]
  · cases hpm : path_matches mt fp
    · simp [h]
    · exact absurd ((path_matches_iff mt fp).mp hpm) h

theorem meta_matched_list_eq_spec (metas : List (List String × String)) (parts : List String) :
    meta_matched_list metas parts = meta_matched_spec_list metas parts := by
  unfold meta_matched_list meta_matched_spec_list
  congr 1
  apply List.filter_congr
  intro e _
  exact path_matches_eq_decide e.1 parts

theorem meta_loop_skip (cfg : Config) (parts : List String) : ∀ (l : List (List String × String)) (acc : Finset String), (∃ e ∈ l, path_matches e.1 parts = true ∧ e.2 ∈ cfg.skip_projects) → meta_loop cfg parts l acc = some ∅ := by
  intro l
  induction l with
  | nil => intro acc h; simp at h
  | cons e rest ih =>
    intro acc h
    obtain ⟨e0, he0, hm0, hs0⟩ := h
    unfold meta_loop
    by_cases hm : path_matches e.1 parts = true
    · rw [if_pos hm]
      by_cases hs : e.2 ∈ cfg.skip_projects
      · rw [if_pos hs]
      · rw [if_neg hs]
        apply ih
        rcases List.mem_cons.mp he0 with he | he
        · subst he; exact absurd hs0 hs
        · exact ⟨e0, he, hm0, hs0⟩
    · rw [if_neg hm]
      apply ih
      rcases List.mem_cons.mp he0 with he | he
      · subst he; exact absurd hm0 hm
      · exact ⟨e0, he, hm0, hs0⟩

theorem meta_loop_no_skip (cfg : Config) (p : String) (ps : List String) : ∀ (l : List (List String × String)) (acc : Finset String), (∀ e ∈ l, path_matches e.1 (p :: ps) = true → e.2 ∉ cfg.skip_projects) → meta_loop cfg (p :: ps) l acc = some (insert p (acc ∪ meta_matched_list l (p :: ps))) := by
  intro l
  induction l with
  | nil => intro acc _; simp [meta_loop, meta_matched_list]
  | cons e rest ih =>
    intro acc h
    unfold meta_loop
    by_cases hm : path_matches e.1 (p :: ps) = true
    · rw [if_pos hm, if_neg (h e (List.mem_cons_self e rest) hm)]
      rw [ih (insert e.2 acc) (fun e2 he2 => h e2 (List.mem_cons_of_mem e he2))]
      have hfil : meta_matched_list (e :: rest) (p :: ps) = insert e.2 (meta_matched_list rest (p :: ps)) := by
        simp [meta_matched_list, List.filter_cons, hm]
      rw [hfil]
      congr 1
      simp [Finset.insert_union, Finset.union_insert]
    · rw [if_neg hm]
      rw [ih acc (fun e2 he2 hm2 => h e2 (List.mem_cons_of_mem e he2) hm2)]
      have hmf : path_matches e.1 (p :: ps) = false := Bool.eq_false_iff.mpr hm
      have hfil : meta_matched_list (e :: rest) (p :: ps) = meta_matched_list rest (p :: ps) := by
        simp [meta_matched_list, List.filter_cons, hmf]
      rw [hfil]

theorem meta_loop_total (cfg : Config) (p : String) (ps : List String) : ∀ (l : List (List String × String)) (acc : Finset String), ∃ s, meta_loop cfg (p :: ps) l acc = some s := by
  intro l
  induction l with
  | nil => intro acc; exact ⟨insert p acc, rfl⟩
  | cons e rest ih =>
    intro acc
    unfold meta_loop
    by_cases hm : path_matches e.1 (p :: ps) = true
    · rw [if_pos hm]
      by_cases hs : e.2 ∈ cfg.skip_projects
      · rw [if_pos hs]; exact ⟨∅, rfl⟩
      · rw [if_neg hs]; exact ih _
    · rw [if_neg hm]; exact ih _

theorem mem_dependents_part (cfg : Config) (p proj x : String) : x ∈ dependents_part cfg p proj ↔ ∃ ds, cfg.dependents.lookup proj = some ds ∧ x ∈ ds ∧ (p = "Windows" → x ∉ cfg.exclude_dependents_windows) := by
  unfold dependents_part
  cases h : cfg.dependents.lookup proj with
  | none => simp
  | some ds =>
    by_cases hw : p = "Windows"
    · simp [hw, Finset.mem_sdiff]
    · simp [hw]

theorem mem_projects_to_test_contrib (cfg : Config) (p proj x : String) : x ∈ projects_to_test_contrib cfg p proj ↔ proj ∉ cfg.runtimes ∧ ((x = proj ∧ (cfg.check_targets.lookup proj).isSome) ∨ ∃ ds, cfg.dependents.lookup proj = some ds ∧ x ∈ ds ∧ (p = "Windows" → x ∉ cfg.exclude_dependents_windows)) := by
  unfold projects_to_test_contrib
  by_cases hr : proj ∈ cfg.runtimes
  · simp [hr]
  · by_cases hct : (cfg.check_targets.lookup proj).isSome
    · simp [hr, hct, Finset.mem_union, Finset.mem_singleton, mem_dependents_part]
    · simp [hr, hct, Finset.mem_union, mem_dependents_part]

/-- C4 (amended): path resolution is total on every relative path with at
least one segment: it returns a possibly empty set and never raises.  On a
zero-segment path the source indexes path_parts[0] and raises IndexError
unless a matching skip-entirely meta entry returns first, so the original
claim fails there. -/
theorem resolve_total_on_nonempty_path (cfg : Config) (file p : String) (ps : List String) (hp : path_parts file = p :: ps) : ∃ s, get_modified_projects_for_file cfg file = some s := by
  unfold get_modified_projects_for_file
  rw [hp]
  exact meta_loop_total cfg p ps cfg.meta_projects ∅

theorem resolve_total_on_nonempty_path_witness : ∃ s, get_modified_projects_for_file cfgM "compiler-rt/lib/x.c" = some s :=
  resolve_total_on_nonempty_path cfgM "compiler-rt/lib/x.c" "compiler-rt" ["lib", "x.c"] (by decide)

/-- C4 counterexample: the empty path has zero segments and resolutionality
fails there: the embedding returns none, modelling the IndexError raised by
path_parts[0] in the source, so no project set is returned. -/
theorem resolve_raises_on_empty_path : get_modified_projects_for_file cfg0 "" = none := by decide

/-- C5: if any meta entry matching the path maps to a project of the
skip-entirely set, resolution returns the empty set, regardless of the first
path segment and of any other matching entries. -/
theorem skip_entirely_absorbs (cfg : Config) (file : String) (e : List String × String) (he : e ∈ cfg.meta_projects) (hm : matches_spec e.1 (path_parts file)) (hs : e.2 ∈ cfg.skip_projects) : get_modified_projects_for_file cfg file = some ∅ := by
  unfold get_modified_projects_for_file
  exact meta_loop_skip cfg (path_parts file) cfg.meta_projects ∅
    ⟨e, he, (path_matches_iff e.1 (path_parts file)).mpr hm, hs⟩

theorem skip_entirely_absorbs_witness : get_modified_projects_for_file cfgM "llvm/docs/foo.rst" = some ∅ :=
  skip_entirely_absorbs cfgM "llvm/docs/foo.rst" (["llvm", "docs"], "docs") (by decide) (by decide) (by decide)

/-- C6: for a non-empty path matching no skip-entirely meta entry, the
resolved set is the union of the target projects of all matching meta
entries plus the first path segment, where an entry matches iff the path has
at least as many segments as the pattern and every pattern segment equals
the corresponding path segment or is the wildcard. -/
theorem resolve_is_meta_union (cfg : Config) (file p : String) (ps : List String) (hp : path_parts file = p :: ps) (hns : ∀ e ∈ cfg.meta_projects, matches_spec e.1 (p :: ps) → e.2 ∉ cfg.skip_projects) : get_modified_projects_for_file cfg file = some (insert p (meta_matched_spec cfg (p :: ps))) := by
  unfold get_modified_projects_for_file
  rw [hp]
  rw [meta_loop_no_skip cfg p ps cfg.meta_projects ∅
    (fun e he hm => hns e he ((path_matches_iff e.1 (p :: ps)).mp hm))]
  rw [Finset.empty_union, meta_matched_spec, meta_matched_list_eq_spec]

theorem resolve_is_meta_union_witness : get_modified_projects_for_file cfgM "clang/lib/A.cpp" = some (insert "clang" (meta_matched_spec cfgM ["clang", "lib", "A.cpp"])) :=
  resolve_is_meta_union cfgM "clang/lib/A.cpp" "clang" ["lib", "A.cpp"] (by decide) (by decide)

/-- C7: membership in projects_to_test is characterized exactly as the claim
states: a member is outside the platform exclusion set and arises from some
modified non-runtime project, either as that project itself when it has a
check target, or as one of its dependents when it has a dependents entry,
with the fixed Windows subset removed from the dependents on the Windows
platform. -/
theorem projects_to_test_characterization (cfg : Config) (m : Finset String) (p x : String) : x ∈ compute_projects_to_test cfg m p ↔ x ∉ exclusions_for cfg p ∧ ∃ proj ∈ m, proj ∉ cfg.runtimes ∧ ((x = proj ∧ (cfg.check_targets.lookup proj).isSome) ∨ ∃ ds, cfg.dependents.lookup proj = some ds ∧ x ∈ ds ∧ (p = "Windows" → x ∉ cfg.exclude_dependents_windows)) := by
  unfold compute_projects_to_test exclude_platform_projects
  rw [Finset.mem_sdiff, Finset.mem_biUnion]
  constructor
  · rintro ⟨⟨proj, hproj, hx⟩, hexcl⟩
    exact ⟨hexcl, proj, hproj, (mem_projects_to_test_contrib cfg p proj x).mp hx⟩
  · rintro ⟨hexcl, proj, hproj, hbody⟩
    exact ⟨⟨proj, hproj, (mem_projects_to_test_contrib cfg p proj x).mpr hbody⟩, hexcl⟩

/-- C1 (amended): each check-target output string is the check-target names
of those members of the corresponding test set that have a check-target
entry, joined by a single space, in ascending lexical order of the target
names; the source sorts the looked-up target names, not the project
names. -/
theorem check_targets_sorted_by_target (cfg : Config) (files : List String) (p : String) (env : EnvVariables) (h : get_env_variables cfg files p = some env) : ∃ sel, select cfg files p = some sel ∧ (∃ l, List.Sorted sLe l ∧ l.Perm ((sortFinset sel.projects_to_test).filterMap (fun q => cfg.check_targets.lookup q)) ∧ env.project_check_targets = String.intercalate " " l) ∧ (∃ l, List.Sorted sLe l ∧ l.Perm ((sortFinset sel.runtimes_to_test).filterMap (fun q => cfg.check_targets.lookup q)) ∧ env.runtimes_check_targets = String.intercalate " " l) ∧ (∃ l, List.Sorted sLe l ∧ l.Perm ((sortFinset sel.runtimes_to_test_needs_reconfig).filterMap (fun q => cfg.check_targets.lookup q)) ∧ env.runtimes_check_targets_needs_reconfig = String.intercalate " " l) := by
  unfold get_env_variables at h
  cases hsel : select cfg files p with
  | none => rw [hsel] at h; simp at h
  | some sel =>
    rw [hsel] at h
    simp only [Option.map_some', Option.some.injEq] at h
    subst h
    refine ⟨sel, rfl, ?_, ?_, ?_⟩ <;>
      exact ⟨_, List.sorted_insertionSort sLe _, List.perm_insertionSort sLe _, rfl⟩

theorem check_targets_sorted_by_target_witness : ∃ sel, select cfgA ["CIR/x", "bolt/x"] "Linux" = some sel ∧ (∃ l, List.Sorted sLe l ∧ l.Perm ((sortFinset sel.projects_to_test).filterMap (fun q => cfgA.check_targets.lookup q)) ∧ (render cfgA (select_from_modified cfgA {"CIR", "bolt"} "Linux")).project_check_targets = String.intercalate " " l) ∧ (∃ l, List.Sorted sLe l ∧ l.Perm ((sortFinset sel.runtimes_to_test).filterMap (fun q => cfgA.check_targets.lookup q)) ∧ (render cfgA (select_from_modified cfgA {"CIR", "bolt"} "Linux")).runtimes_check_targets = String.intercalate " " l) ∧ (∃ l, List.Sorted sLe l ∧ l.Perm ((sortFinset sel.runtimes_to_test_needs_reconfig).filterMap (fun q => cfgA.check_targets.lookup q)) ∧ (render cfgA (select_from_modified cfgA {"CIR", "bolt"} "Linux")).runtimes_check_targets_needs_reconfig = String.intercalate " " l) :=
  check_targets_sorted_by_target cfgA ["CIR/x", "bolt/x"] "Linux"
    (render cfgA (select_from_modified cfgA {"CIR", "bolt"} "Linux")) (by decide)

/-- C1 counterexample: with the CIR and bolt check-target entries the test
file of the repository pins, ascending project-name order (CIR before bolt)
would render check-clang-cir before check-bolt, but the code renders the
target names in their own ascending order, which differs. -/
theorem check_targets_not_project_order : (get_env_variables cfgA ["CIR/x", "bolt/x"] "Linux").map EnvVariables.project_check_targets = some "check-bolt check-clang-cir" ∧ (select cfgA ["CIR/x", "bolt/x"] "Linux").map (fun sel => check_targets_by_project_order cfgA sel.projects_to_test) = some "check-clang-cir check-bolt" ∧ ("check-bolt check-clang-cir" : String) ≠ "check-clang-cir check-bolt" :=
  ⟨by decide, by decide, by decide⟩

/-- C2 (amended): no project of the exclusion set of the given platform is a
member of projects_to_test, runtimes_to_test, the reconfigure variant, or
runtimes_to_build, so none contributes a check target to either check-target
output; projects_to_build however is computed by closing over dependencies
after the exclusion and can contain excluded projects. -/
theorem excluded_projects_absent_from_test_sets (cfg : Config) (files : List String) (p : String) (sel : Selection) (x : String) (hsel : select cfg files p = some sel) (hx : x ∈ exclusions_for cfg p) : x ∉ sel.projects_to_test ∧ x ∉ sel.runtimes_to_test ∧ x ∉ sel.runtimes_to_test_needs_reconfig ∧ x ∉ sel.runtimes_to_build := by
  unfold select at hsel
  cases hm : get_modified_projects cfg files with
  | none => rw [hm] at hsel; simp at hsel
  | some m =>
    rw [hm] at hsel
    simp only [Option.map_some', Option.some.injEq] at hsel
    subst hsel
    refine ⟨fun hmem => ?_, fun hmem => ?_, fun hmem => ?_, fun hmem => ?_⟩ <;>
      exact (Finset.mem_sdiff.mp hmem).2 hx

theorem excluded_projects_absent_witness : "x" ∉ (select_from_modified cfgB {"y"} "Linux").projects_to_test ∧ "x" ∉ (select_from_modified cfgB {"y"} "Linux").runtimes_to_test ∧ "x" ∉ (select_from_modified cfgB {"y"} "Linux").runtimes_to_test_needs_reconfig ∧ "x" ∉ (select_from_modified cfgB {"y"} "Linux").runtimes_to_build :=
  excluded_projects_absent_from_test_sets cfgB ["y/f"] "Linux"
    (select_from_modified cfgB {"y"} "Linux") "x" (by decide) (by decide)

/-- C2 counterexample: on Linux with project x excluded, modifying project y,
which depends on x, still puts x into projects_to_build, because the
dependency closure runs after the exclusion was applied to
projects_to_test. -/
theorem excluded_project_in_projects_to_build : select cfgB ["y/f"] "Linux" = some (select_from_modified cfgB {"y"} "Linux") ∧ "x" ∈ exclusions_for cfgB "Linux" ∧ "x" ∈ (select_from_modified cfgB {"y"} "Linux").projects_to_build :=
  ⟨by decide, by decide, by decide⟩

/-- C3 (amended): for every project P of the dependency closure of
projects_to_test, every direct dependency of P is in the final
projects_to_build unless it is in the explicit-build-skip set.  The
restriction to the closure part is necessary: projects added only as direct
dependencies of runtimes in the final pass are not expanded further. -/
theorem closure_part_deps_in_build (cfg : Config) (m : Finset String) (p P d : String) (hP : P ∈ add_dependencies_loop cfg (closure_fuel cfg) (compute_projects_to_test cfg m p)) (hd : d ∈ depsOf cfg P) : d ∈ projects_to_build_from cfg m p ∨ d ∈ cfg.skip_build_projects := by
  have hdC : d ∈ add_dependencies_loop cfg (closure_fuel cfg) (compute_projects_to_test cfg m p) :=
    closure_closed cfg (compute_projects_to_test cfg m p) P hP hd
  by_cases hskip : d ∈ cfg.skip_build_projects
  · exact Or.inr hskip
  · left
    unfold projects_to_build_from add_dependencies
    exact Finset.mem_sdiff.mpr ⟨Finset.mem_union_left _ hdC, hskip⟩

theorem closure_part_deps_in_build_witness : "x" ∈ projects_to_build_from cfgB {"y"} "Linux" ∨ "x" ∈ cfgB.skip_build_projects :=
  closure_part_deps_in_build cfgB {"y"} "Linux" "y" "x" (by decide) (by decide)

/-- C3 counterexample: runtime r is tested when touched and depends on
project d, so d enters projects_to_build through the single runtime pass;
the direct dependency e of d is in neither projects_to_build nor the
build-skip set, violating the claim at P = d. -/
theorem runtime_pass_not_closed : select cfgC ["r/f"] "Linux" = some (select_from_modified cfgC {"r"} "Linux") ∧ "d" ∈ (select_from_modified cfgC {"r"} "Linux").projects_to_build ∧ "e" ∈ depsOf cfgC "d" ∧ "e" ∉ (select_from_modified cfgC {"r"} "Linux").projects_to_build ∧ "e" ∉ cfgC.skip_build_projects :=
  ⟨by decide, by decide, by decide, by decide, by decide⟩

/-- C8: extending the list of changed files by one file only grows every
output: each of the five result sets of the larger input contains the
corresponding set of the smaller input, and the CIR flag can only switch
from OFF to ON. -/
theorem outputs_monotone_in_files (cfg : Config) (files : List String) (f p : String) (s s' : Selection) (h1 : select cfg files p = some s) (h2 : select cfg (files ++ [f]) p = some s') : s.projects_to_test ⊆ s'.projects_to_test ∧ s.runtimes_to_test ⊆ s'.runtimes_to_test ∧ s.runtimes_to_test_needs_reconfig ⊆ s'.runtimes_to_test_needs_reconfig ∧ s.runtimes_to_build ⊆ s'.runtimes_to_build ∧ s.projects_to_build ⊆ s'.projects_to_build ∧ (s.enable_cir = true → s'.enable_cir = true) := by
  unfold select at h1 h2
  cases hm : get_modified_projects cfg files with
  | none => rw [hm] at h1; simp at h1
  | some m =>
    rw [hm] at h1
    simp only [Option.map_some', Option.some.injEq] at h1
    cases hm2 : get_modified_projects cfg (files ++ [f]) with
    | none => rw [hm2] at h2; simp at h2
    | some m2 =>
      rw [hm2] at h2
      simp only [Option.map_some', Option.some.injEq] at h2
      subst h1
      subst h2
      have hsub : m ⊆ m2 := get_modified_projects_append_subset cfg files f m m2 hm hm2
      refine ⟨compute_projects_to_test_mono cfg p hsub,
        compute_runtimes_to_test_mono cfg p hsub,
        compute_runtimes_to_test_needs_reconfig_mono cfg p hsub,
        compute_runtimes_to_build_mono cfg p
          (Finset.union_subset_union (compute_runtimes_to_test_mono cfg p hsub)
            (compute_runtimes_to_test_needs_reconfig_mono cfg p hsub)) hsub,
        projects_to_build_from_mono cfg p hsub, ?_⟩
      intro hc
      exact decide_eq_true (projects_to_build_from_mono cfg p hsub (of_decide_eq_true hc))

theorem outputs_monotone_in_files_witness : (select_from_modified cfgB {"y"} "Linux").projects_to_test ⊆ (select_from_modified cfgB {"y", "z"} "Linux").projects_to_test ∧ (select_from_modified cfgB {"y"} "Linux").runtimes_to_test ⊆ (select_from_modified cfgB {"y", "z"} "Linux").runtimes_to_test ∧ (select_from_modified cfgB {"y"} "Linux").runtimes_to_test_needs_reconfig ⊆ (select_from_modified cfgB {"y", "z"} "Linux").runtimes_to_test_needs_reconfig ∧ (select_from_modified cfgB {"y"} "Linux").runtimes_to_build ⊆ (select_from_modified cfgB {"y", "z"} "Linux").runtimes_to_build ∧ (select_from_modified cfgB {"y"} "Linux").projects_to_build ⊆ (select_from_modified cfgB {"y", "z"} "Linux").projects_to_build ∧ ((select_from_modified cfgB {"y"} "Linux").enable_cir = true → (select_from_modified cfgB {"y", "z"} "Linux").enable_cir = true) :=
  outputs_monotone_in_files cfgB ["y/f"] "z/g" "Linux"
    (select_from_modified cfgB {"y"} "Linux")
    (select_from_modified cfgB {"y", "z"} "Linux") (by decide) (by decide)

/-- C9: a platform string other than the three recognized names selects the
empty exclusion set and, not being Windows, skips the dependents removal, so
the whole resolution equals the variant with no platform-specific behavior,
and no error is raised. -/
theorem unknown_platform_no_exclusions (cfg : Config) (files : List String) (p : String) (h1 : p ≠ "Linux") (h2 : p ≠ "Windows") (h3 : p ≠ "Darwin") : get_env_variables cfg files p = get_env_variables_noexcl cfg files := by
  have hex : exclusions_for cfg p = ∅ := by simp [exclusions_for, h1, h2, h3]
  have hsfm : ∀ m : Finset String, select_from_modified cfg m p = select_noexcl cfg m := by
    intro m
    have hptt : compute_projects_to_test cfg m p = projects_to_test_noexcl cfg m := by
      unfold compute_projects_to_test exclude_platform_projects projects_to_test_noexcl
      rw [hex, Finset.sdiff_empty]
      apply Finset.biUnion_congr rfl
      intro proj _
      unfold projects_to_test_contrib
      by_cases hr : proj ∈ cfg.runtimes
      · simp [hr]
      · simp only [if_neg hr]
        congr 1
        unfold dependents_part
        cases hld : cfg.dependents.lookup proj with
        | none => simp
        | some ds => simp [h2]
    have hrtt : compute_runtimes_to_test cfg m p = runtimes_to_test_noexcl cfg m := by
      unfold compute_runtimes_to_test exclude_platform_projects runtimes_to_test_noexcl
      rw [hex, Finset.sdiff_empty]
    have hrttr : compute_runtimes_to_test_needs_reconfig cfg m p = runtimes_to_test_reconfig_noexcl cfg m := by
      unfold compute_runtimes_to_test_needs_reconfig exclude_platform_projects runtimes_to_test_reconfig_noexcl
      rw [hex, Finset.sdiff_empty]
    have hrtb : compute_runtimes_to_build cfg (compute_runtimes_to_test cfg m p ∪ compute_runtimes_to_test_needs_reconfig cfg m p) m p = runtimes_to_build_noexcl cfg m := by
      unfold compute_runtimes_to_build exclude_platform_projects runtimes_to_build_noexcl
      rw [hex, Finset.sdiff_empty, hrtt, hrttr]
    have hptb : projects_to_build_from cfg m p = projects_to_build_noexcl cfg m := by
      unfold projects_to_build_from projects_to_build_noexcl
      rw [hptt, hrtb]
    unfold select_from_modified select_noexcl
    rw [hrtb, hptb, hptt, hrtt, hrttr]
  unfold get_env_variables get_env_variables_noexcl select
  cases hm : get_modified_projects cfg files with
  | none => simp
  | some m =>
    simp only [Option.map_some']
    rw [hsfm m]

theorem unknown_platform_no_exclusions_witness : get_env_variables cfgB ["y/f"] "Solaris" = get_env_variables_noexcl cfgB ["y/f"] :=
  unknown_platform_no_exclusions cfgB ["y/f"] "Solaris" (by decide) (by decide) (by decide)

/-- C10: the resolver is a pure function of its inputs, so two invocations on
identical inputs yield identical output mappings; moreover the rendering
sorts every list it joins, so the order in which the working sets are
enumerated, the only run-to-run variation the source could exhibit, cannot
change any output string. -/
theorem resolver_deterministic (cfg : Config) (files : List String) (p : String) : get_env_variables cfg files p = get_env_variables cfg files p ∧ ∀ l1 l2 : List String, l1.Perm l2 → sort_strings l1 = sort_strings l2 := by
  refine ⟨rfl, ?_⟩
  intro l1 l2 h
  exact List.eq_of_perm_of_sorted
    ((List.perm_insertionSort sLe l1).trans (h.trans (List.perm_insertionSort sLe l2).symm))
    (List.sorted_insertionSort sLe l1)
    (List.sorted_insertionSort sLe l2)

theorem resolver_deterministic_witness : (get_env_variables cfg0 [] "Linux" = get_env_variables cfg0 [] "Linux") ∧ sort_strings ["b", "a"] = sort_strings ["a", "b"] :=
  ⟨(resolver_deterministic cfg0 [] "Linux").1,
    (resolver_deterministic cfg0 [] "Linux").2 ["b", "a"] ["a", "b"] (by decide)⟩
